import Mathlib

set_option linter.unusedVariables false

/-
Shallow embedding of `src/main.py`, a gazette-watcher backend: it scrapes a
gazette listing page into `{title, url}` posts, stores unseen URLs in a
document collection, and relays unnotified posts to a chat via a messaging
bot API.  HTTP responses are modelled by their status code plus, for the
gazette page, the anchors of the HTML body in document order; the document
store is explicit state; fallible endpoints return `Except` with the HTTP
error status.
-/

/-- A scraped posting: the anchor's stripped visible text and the absolute URL. -/
structure Post where
  title : String
  url : String
deriving DecidableEq, Repr

/-- One anchor element of the fetched HTML page, in document order: its
stripped visible text, its optional `href` attribute, and whether it sits
inside a list item (so the `li a` CSS query selects it). -/
structure Anchor where
  text : String
  href : Option String
  inListItem : Bool
deriving DecidableEq, Repr

/-- A stored `gazettepost` document. -/
structure Doc where
  id : Nat
  title : String
  url : String
  notified : Bool
  created_at : Nat
  updated_at : Option Nat
deriving DecidableEq, Repr

/-- The post-detail path `/iulaan/view/`. -/
def detailPath : String := "/iulaan/view/"

/-- The site origin prepended to relative hrefs. -/
def siteOrigin : String := "https://gazette.gov.mv"

/-- Python's `pat in s` substring test. -/
def strContains (s pat : String) : Bool := decide (pat.toList <:+: s.toList)

/-- Python's `s.startswith(pat)` test. -/
def strStartsWith (s pat : String) : Bool := decide (pat.toList <+: s.toList)

/-- `href if href.startswith("http") else f"https://gazette.gov.mv{href}"`. -/
def normalizeUrl (href : String) : String :=
  if strStartsWith href "http" then href else siteOrigin ++ href

/-- `any(p["url"] == url for p in posts)`. -/
def hasUrl (posts : List Post) (url : String) : Bool :=
  posts.any fun p => p.url == url

/-- Append the post unless its URL already occurs in the accumulator. -/
def addIfNew (posts : List Post) (title url : String) : List Post :=
  if hasUrl posts url then posts else posts ++ [⟨title, url⟩]

/-- The primary CSS query: anchors whose `href` begins with the detail path. -/
def anchorPrimary (a : Anchor) : Bool :=
  match a.href with
  | some h => strStartsWith h detailPath
  | none => false

/-- `soup.select('a[href^="/iulaan/view/"]')` in document order. -/
def primarySelect (doc : List Anchor) : List Anchor := doc.filter anchorPrimary

/-- `soup.select("li a")` in document order. -/
def fallbackSelect (doc : List Anchor) : List Anchor := doc.filter fun a => a.inListItem

/-- Body of the primary loop: skip anchors with empty title or missing/empty
href, else normalize the URL and append unless the URL was already taken. -/
def primaryStep (posts : List Post) (a : Anchor) : List Post :=
  match a.href with
  | none => posts
  | some href =>
    if a.text = "" ∨ href = "" then posts
    else addIfNew posts a.text (normalizeUrl href)

/-- Body of the fallback loop: keep list-item anchors with nonempty href and
title whose href has the detail path as a substring. -/
def fallbackStep (posts : List Post) (a : Anchor) : List Post :=
  match a.href with
  | none => posts
  | some href =>
    if href ≠ "" ∧ a.text ≠ "" ∧ strContains href detailPath then
      addIfNew posts a.text (normalizeUrl href)
    else posts

/-- The primary strategy's output. -/
def primaryPosts (doc : List Anchor) : List Post :=
  (primarySelect doc).foldl primaryStep []

/-- The fallback strategy's output when run on an empty accumulator. -/
def fallbackPosts (doc : List Anchor) : List Post :=
  (fallbackSelect doc).foldl fallbackStep []

/-- `fetch_gazette_posts`: raise 502 on a non-200 status, else parse the body
with the primary strategy, falling back to list items when it found nothing. -/
def fetch_gazette_posts (status : Nat) (doc : List Anchor) : Except Nat (List Post) :=
  if status ≠ 200 then Except.error 502
  else Except.ok (if (primaryPosts doc).isEmpty then fallbackPosts doc else primaryPosts doc)

/-- The document collection: stored docs in insertion order, plus the counter
the storage layer draws fresh ids and creation stamps from. -/
structure DBState where
  docs : List Doc
  nextStamp : Nat
deriving DecidableEq, Repr

/-- Modelled from the spec: `create_document` of the `database` module (not
under `src/`) — inserts one document, with the storage layer assigning an
opaque unique id and a creation timestamp; later inserts get larger stamps. -/
def create_document (s : DBState) (title url : String) (notified : Bool) : DBState :=
  ⟨s.docs ++ [⟨s.nextStamp, title, url, notified, s.nextStamp, none⟩], s.nextStamp + 1⟩

/-- Modelled from the spec: `get_documents("gazettepost", {})` of the
`database` module (not under `src/`) — reads all stored documents. -/
def get_documents (s : DBState) : List Doc := s.docs

/-- The loop of `store_new_posts`: the existing-URL set is fixed for the whole
loop; an unseen candidate is created with `notified=false` and collected. -/
def storeLoop (existing_urls : List String) : DBState → List Post → DBState × List Post
  | s, [] => (s, [])
  | s, p :: rest =>
    if existing_urls.contains p.url then storeLoop existing_urls s rest
    else
      let r := storeLoop existing_urls (create_document s p.title p.url false) rest
      (r.1, p :: r.2)

/-- `store_new_posts`: 500 when the db handle is unset, else gather the
existing URLs once and insert-if-new over the candidates in input order. -/
def store_new_posts (db : Option DBState) (posts : List Post) :
    Except Nat (DBState × List Post) :=
  match db with
  | none => Except.error 500
  | some s => Except.ok (storeLoop ((get_documents s).map fun d => d.url) s posts)

/-- Outcome of the HTTP POST to the messaging provider: a response bearing a
status code, or a transport-level failure (an exception inside the POST). -/
inductive HttpOutcome where
  | response (status : Nat)
  | transportFailure
deriving DecidableEq, Repr

/-- `send_telegram_message`: `res.status_code == 200`, with any exception
caught and converted to `False`. -/
def send_telegram_message (outcome : HttpOutcome) : Bool :=
  match outcome with
  | .response status => status == 200
  | .transportFailure => false

/-- The spec-side notion of an HTTP success status (the 2xx class), stated
from the spec's words for comparison with the code's status check. -/
def isSuccessStatus (status : Nat) : Bool := decide (200 ≤ status ∧ status < 300)

/-- Response shape of `/api/fetch`. -/
structure FetchResponse where
  fetched : Nat
  new : Nat
  new_posts : List Post
deriving DecidableEq, Repr

/-- `/api/fetch`: scrape, store, and report counts plus the inserted posts. -/
def api_fetch (db : Option DBState) (status : Nat) (doc : List Anchor) :
    Except Nat (DBState × FetchResponse) :=
  match fetch_gazette_posts status doc with
  | Except.error e => Except.error e
  | Except.ok posts =>
    match store_new_posts db posts with
    | Except.error e => Except.error e
    | Except.ok r => Except.ok (r.1, ⟨posts.length, r.2.length, r.2⟩)

/-- The descending creation-time order of the Mongo sort `("created_at", -1)`. -/
def createdDesc (a b : Doc) : Prop := b.created_at ≤ a.created_at

instance : DecidableRel createdDesc := fun a b => Nat.decLe b.created_at a.created_at

instance : IsTotal Doc createdDesc := ⟨fun a b => Nat.le_total b.created_at a.created_at⟩

instance : IsTrans Doc createdDesc := ⟨fun _ _ _ h h2 => Nat.le_trans h2 h⟩

/-- `find({"notified": False}).sort("created_at", -1).limit(n)`. -/
def listUnnotified (docs : List Doc) (n : Nat) : List Doc :=
  ((docs.filter fun d => !d.notified).insertionSort createdDesc).take n

/-- The `$set` document of the notify update: `notified=true` and a fresh
update stamp. -/
def markDoc (now : Nat) (d : Doc) : Doc := ⟨d.id, d.title, d.url, true, d.created_at, some now⟩

/-- `update_one({"_id": i}, ...)`: update the first document whose id matches. -/
def updateFirst (now : Nat) (i : Nat) : List Doc → List Doc
  | [] => []
  | d :: rest => if d.id = i then markDoc now d :: rest else d :: updateFirst now i rest

/-- Apply the notify update for each doc of `batch` in order. -/
def markAll (now : Nat) (batch : List Doc) (store : List Doc) : List Doc :=
  batch.foldl (fun st d => updateFirst now d.id st) store

/-- The send loop of `api_notify`.  `sendOk k` is the provider's verdict on
the k-th attempted send of this call (the loop breaks on the first failure,
so the running success count `sent` is also the attempt index).  Returns the
updated collection, the sent count, and the ids of the posts whose sends were
attempted, in attempt order. -/
def notifyGo (sendOk : Nat → Bool) (now : Nat) :
    List Doc → List Doc → Nat → List Doc × Nat × List Nat
  | store, [], sent => (store, sent, [])
  | store, d :: rest, sent =>
    if sendOk sent then
      let r := notifyGo sendOk now (updateFirst now d.id store) rest (sent + 1)
      (r.1, r.2.1, d.id :: r.2.2)
    else (store, sent, [d.id])

/-- `/api/notify`: 500 when the db handle is unset; read up to 20 unnotified
posts most-recent-first; iterate them reversed (oldest first), marking each
notified on success and stopping on the first failure. -/
def api_notify (db : Option DBState) (sendOk : Nat → Bool) (now : Nat) :
    Except Nat (DBState × Nat × List Nat) :=
  match db with
  | none => Except.error 500
  | some s =>
    if (listUnnotified s.docs 20).isEmpty then Except.ok (s, 0, [])
    else
      Except.ok
        (⟨(notifyGo sendOk now s.docs (listUnnotified s.docs 20).reverse 0).1, s.nextStamp⟩,
         (notifyGo sendOk now s.docs (listUnnotified s.docs 20).reverse 0).2.1,
         (notifyGo sendOk now s.docs (listUnnotified s.docs 20).reverse 0).2.2)

/-- The spec's first-occurrence de-duplication by URL, stated from the spec's
words to compare with the accumulator folds of the source. -/
def dedupKeepFirst : List Post → List Post
  | [] => []
  | p :: rest => p :: dedupKeepFirst (rest.filter fun q => q.url != p.url)
termination_by l => l.length
decreasing_by
  simp only [List.length_cons]
  exact Nat.lt_succ_of_le (List.length_filter_le _ _)

/-- The post the primary loop would extract from one anchor, if any. -/
def primExtract (a : Anchor) : Option Post :=
  match a.href with
  | none => none
  | some href =>
    if a.text = "" ∨ href = "" then none else some ⟨a.text, normalizeUrl href⟩

/-- The post the fallback loop would extract from one anchor, if any. -/
def fallExtract (a : Anchor) : Option Post :=
  match a.href with
  | none => none
  | some href =>
    if href ≠ "" ∧ a.text ≠ "" ∧ strContains href detailPath then
      some ⟨a.text, normalizeUrl href⟩
    else none

/-- Appending one candidate post under the duplicate check. -/
def addPost (acc : List Post) (p : Post) : List Post := addIfNew acc p.title p.url

/-- The stream of posts the primary loop considers, before de-duplication. -/
def primaryCandidates (doc : List Anchor) : List Post :=
  (primarySelect doc).filterMap primExtract

/-- The stream of posts the fallback loop considers, before de-duplication. -/
def fallbackCandidates (doc : List Anchor) : List Post :=
  (fallbackSelect doc).filterMap fallExtract

/-- The candidate stream of the strategy the fetch actually used. -/
def fetchCandidates (doc : List Anchor) : List Post :=
  if (primaryCandidates doc).isEmpty then fallbackCandidates doc else primaryCandidates doc

/-- Count of leading `true` verdicts of `f`, starting at index `i`, capped at `n`. -/
def leadTrue (f : Nat → Bool) : Nat → Nat → Nat
  | _, 0 => 0
  | i, n + 1 => if f i then leadTrue f (i + 1) n + 1 else 0

/-! Fixture data for the concrete witness runs. -/

/-- A collection of three unnotified posts (ids 1, 2, 3 created at times 2,
3, 1) and one already-notified post; store order differs from creation order. -/
def sampleDocs : List Doc :=
  [⟨1, "A", "u1", false, 2, none⟩, ⟨2, "B", "u2", false, 3, none⟩,
   ⟨3, "C", "u3", false, 1, none⟩, ⟨4, "D", "u4", true, 4, none⟩]

/-- The sample collection as a db state. -/
def sampleDB : DBState := ⟨sampleDocs, 5⟩

/-- Sample store and batch for the C6 witness. -/
def storeDB : DBState := ⟨[⟨1, "A", "u1", false, 1, none⟩], 2⟩

/-- A candidate batch: one URL already stored, one new. -/
def storePosts : List Post := [⟨"X", "u1"⟩, ⟨"Y", "u2"⟩]

/-- A detail-page URL used by the duplicate-batch run. -/
def dupUrl : String := "https://gazette.gov.mv/iulaan/view/1"

/-- A two-post listing page used by the fetch witnesses. -/
def twoAnchors : List Anchor :=
  [⟨"Title A", some "/iulaan/view/1", false⟩, ⟨"Title B", some "/iulaan/view/2", false⟩]

/-- The store state after fetching `twoAnchors` into an empty store. -/
def twoAnchorsDB : DBState :=
  ⟨[⟨0, "Title A", "https://gazette.gov.mv/iulaan/view/1", false, 0, none⟩,
    ⟨1, "Title B", "https://gazette.gov.mv/iulaan/view/2", false, 1, none⟩], 2⟩

/-- The C4 fixture: a page with no primary-pattern anchor (the href does not
begin with the detail path) but one list-item anchor whose href holds the
detail path as a substring. -/
def fallbackFixture : List Anchor :=
  [⟨"X", some "https://gazette.gov.mv/iulaan/view/9", true⟩]

/-- The C5 fixture: a page whose first and second anchors carry the same
detail URL (the second inside a list item), with a distinct third URL. -/
def dupAnchors : List Anchor :=
  [⟨"A", some "/iulaan/view/1", false⟩, ⟨"A2", some "/iulaan/view/1", true⟩,
   ⟨"B", some "/iulaan/view/2", false⟩]

/-! Helper lemmas about the notify loop. -/

theorem leadTrue_le (f : Nat → Bool) : ∀ n i, leadTrue f i n ≤ n := by
  intro n
  induction n with
  | zero => intro i; simp [leadTrue]
  | succ n ih =>
    intro i
    simp only [leadTrue]
    by_cases h : f i
    · simp only [h, if_true]
      have := ih (i + 1)
      omega
    · simp [h]

theorem leadTrue_true (f : Nat → Bool) : ∀ n i j, j < leadTrue f i n → f (i + j) = true := by
  intro n
  induction n with
  | zero => intro i j h; simp [leadTrue] at h
  | succ n ih =>
    intro i j h
    simp only [leadTrue] at h
    by_cases hf : f i
    · rw [if_pos hf] at h
      cases j with
      | zero => simpa using hf
      | succ j =>
        have hj : j < leadTrue f (i + 1) n := by omega
        have := ih (i + 1) j hj
        have e : i + (j + 1) = i + 1 + j := by omega
        rw [e]
        exact this
    · rw [if_neg hf] at h
      omega

theorem leadTrue_firstFail (f : Nat → Bool) :
    ∀ k n i, (∀ j, j < k → f (i + j) = true) → f (i + k) = false → k ≤ n →
      leadTrue f i n = k := by
  intro k
  induction k with
  | zero =>
    intro n i hsucc hfail hle
    cases n with
    | zero => simp [leadTrue]
    | succ m =>
      have hfi : f i = false := by simpa using hfail
      simp [leadTrue, hfi]
  | succ k ih =>
    intro n i hsucc hfail hle
    cases n with
    | zero => omega
    | succ m =>
      have hfi : f i = true := by simpa using hsucc 0 (Nat.succ_pos k)
      simp only [leadTrue, hfi, if_true]
      have hrec : leadTrue f (i + 1) m = k := by
        apply ih m (i + 1)
        · intro j hj
          have := hsucc (j + 1) (by omega)
          have e : i + (j + 1) = i + 1 + j := by omega
          rwa [e] at this
        · have e : i + (k + 1) = i + 1 + k := by omega
          rwa [e] at hfail
        · omega
      omega

theorem notifyGo_eq (sendOk : Nat → Bool) (now : Nat) :
    ∀ batch store sent,
      notifyGo sendOk now store batch sent =
        (markAll now (batch.take (leadTrue sendOk sent batch.length)) store,
         sent + leadTrue sendOk sent batch.length,
         (batch.take (min (leadTrue sendOk sent batch.length + 1) batch.length)).map
           fun d => d.id) := by
  intro batch
  induction batch with
  | nil => intro store sent; simp [notifyGo, markAll, leadTrue]
  | cons d rest ih =>
    intro store sent
    simp only [notifyGo, List.length_cons, leadTrue]
    by_cases h : sendOk sent
    · simp only [h, if_true]
      rw [ih]
      have hmin : min (leadTrue sendOk (sent + 1) rest.length + 1 + 1) (rest.length + 1)
          = min (leadTrue sendOk (sent + 1) rest.length + 1) rest.length + 1 :=
        Nat.succ_min_succ _ _
      simp only [hmin, List.take_succ_cons, List.map_cons, markAll, List.foldl_cons,
        Prod.mk.injEq]
      exact ⟨trivial, by omega, trivial⟩
    · simp only [h, if_false]
      have hmin : min (0 + 1) (rest.length + 1) = 1 := by omega
      simp [markAll, hmin, List.take_succ_cons]

theorem mem_listUnnotified {docs : List Doc} {n : Nat} {d : Doc}
    (h : d ∈ listUnnotified docs n) : d ∈ docs ∧ d.notified = false := by
  have h1 : d ∈ (docs.filter fun d => !d.notified).insertionSort createdDesc :=
    (List.take_sublist _ _).subset h
  have h2 : d ∈ docs.filter fun d => !d.notified := (List.mem_insertionSort _).1 h1
  have h3 := List.mem_filter.1 h2
  exact ⟨h3.1, by simpa using h3.2⟩

theorem listUnnotified_pairwise (docs : List Doc) (n : Nat) :
    List.Pairwise createdDesc (listUnnotified docs n) :=
  List.Pairwise.sublist (List.take_sublist _ _) (List.sorted_insertionSort createdDesc _)

theorem listUnnotified_ids_nodup {docs : List Doc}
    (h : (docs.map fun d => d.id).Nodup) (n : Nat) :
    ((listUnnotified docs n).map fun d => d.id).Nodup := by
  have h1 : ((docs.filter fun d => !d.notified).map fun d => d.id).Nodup :=
    List.Nodup.sublist (List.Sublist.map _ (List.filter_sublist _)) h
  have hp := (List.perm_insertionSort createdDesc (docs.filter fun d => !d.notified)).map
    fun d => d.id
  have h2 : (((docs.filter fun d => !d.notified).insertionSort createdDesc).map
      fun d => d.id).Nodup := (List.Perm.nodup_iff hp).2 h1
  exact List.Nodup.sublist (List.Sublist.map _ (List.take_sublist _ _)) h2

theorem mem_updateFirst {now i : Nat} :
    ∀ {store : List Doc} {d' : Doc}, d' ∈ updateFirst now i store →
      d' ∈ store ∨ ∃ d, d ∈ store ∧ d.id = i ∧ d' = markDoc now d := by
  intro store
  induction store with
  | nil => intro d' h; simp [updateFirst] at h
  | cons e rest ih =>
    intro d' h
    simp only [updateFirst] at h
    by_cases he : e.id = i
    · rw [if_pos he] at h
      rcases List.mem_cons.1 h with h1 | h1
      · exact Or.inr ⟨e, List.mem_cons_self e rest, he, h1⟩
      · exact Or.inl (List.mem_cons_of_mem _ h1)
    · rw [if_neg he] at h
      rcases List.mem_cons.1 h with h1 | h1
      · exact Or.inl (h1 ▸ List.mem_cons_self e rest)
      · rcases ih h1 with h2 | ⟨d, hd, hdi, hde⟩
        · exact Or.inl (List.mem_cons_of_mem _ h2)
        · exact Or.inr ⟨d, List.mem_cons_of_mem _ hd, hdi, hde⟩

theorem updateFirst_mem_of_ne {now i : Nat} :
    ∀ {store : List Doc} {d : Doc}, d ∈ store → d.id ≠ i →
      d ∈ updateFirst now i store := by
  intro store
  induction store with
  | nil => intro d h _; exact absurd h (List.not_mem_nil d)
  | cons e rest ih =>
    intro d h hne
    rcases List.mem_cons.1 h with h1 | h1
    · subst h1
      simp only [updateFirst]
      rw [if_neg hne]
      exact List.mem_cons_self d (updateFirst now i rest)
    · simp only [updateFirst]
      by_cases he : e.id = i
      · rw [if_pos he]; exact List.mem_cons_of_mem _ h1
      · rw [if_neg he]; exact List.mem_cons_of_mem _ (ih h1 hne)

theorem mem_markAll_of_not {now : Nat} :
    ∀ {batch store : List Doc} {d : Doc}, d ∈ store →
      d.id ∉ batch.map (fun b => b.id) → d ∈ markAll now batch store := by
  intro batch
  induction batch with
  | nil => intro store d h _; simpa [markAll] using h
  | cons b bs ih =>
    intro store d h hnot
    simp only [List.map_cons, List.mem_cons, not_or] at hnot
    show d ∈ markAll now bs (updateFirst now b.id store)
    exact ih (updateFirst_mem_of_ne h hnot.1) hnot.2

theorem markDoc_markDoc (now : Nat) (d : Doc) : markDoc now (markDoc now d) = markDoc now d :=
  rfl

theorem mem_markAll {now : Nat} :
    ∀ {batch store : List Doc} {d' : Doc}, d' ∈ markAll now batch store →
      d' ∈ store ∨ ∃ d, d ∈ store ∧ d.id ∈ batch.map (fun b => b.id) ∧ d' = markDoc now d := by
  intro batch
  induction batch with
  | nil => intro store d' h; exact Or.inl (by simpa [markAll] using h)
  | cons b bs ih =>
    intro store d' h
    have h' : d' ∈ markAll now bs (updateFirst now b.id store) := h
    rcases ih h' with h1 | ⟨d, hd, hdi, hde⟩
    · rcases mem_updateFirst h1 with h2 | ⟨d, hd2, hdi2, hde2⟩
      · exact Or.inl h2
      · refine Or.inr ⟨d, hd2, ?_, hde2⟩
        simp only [List.map_cons, List.mem_cons]
        exact Or.inl hdi2
    · rcases mem_updateFirst hd with h2 | ⟨d0, hd0, hdi0, hde0⟩
      · refine Or.inr ⟨d, h2, ?_, hde⟩
        simp only [List.map_cons, List.mem_cons]
        exact Or.inr hdi
      · refine Or.inr ⟨d0, hd0, ?_, ?_⟩
        · simp only [List.map_cons, List.mem_cons]
          exact Or.inl hdi0
        · rw [hde, hde0, markDoc_markDoc]

theorem api_notify_run (s : DBState) (sendOk : Nat → Bool) (now : Nat) :
    api_notify (some s) sendOk now =
      Except.ok
        (⟨(notifyGo sendOk now s.docs (listUnnotified s.docs 20).reverse 0).1, s.nextStamp⟩,
         (notifyGo sendOk now s.docs (listUnnotified s.docs 20).reverse 0).2.1,
         (notifyGo sendOk now s.docs (listUnnotified s.docs 20).reverse 0).2.2) := by
  simp only [api_notify]
  by_cases hemp : (listUnnotified s.docs 20).isEmpty
  · rw [if_pos hemp]
    have he : listUnnotified s.docs 20 = [] := List.isEmpty_iff.1 hemp
    simp [he, notifyGo]
  · rw [if_neg hemp]

theorem api_notify_ok_elim {s : DBState} {sendOk : Nat → Bool} {now : Nat}
    {s' : DBState} {sent : Nat} {attempted : List Nat}
    (h : api_notify (some s) sendOk now = Except.ok (s', sent, attempted)) :
    s'.docs =
      markAll now ((listUnnotified s.docs 20).reverse.take
        (leadTrue sendOk 0 (listUnnotified s.docs 20).reverse.length)) s.docs ∧
    sent = leadTrue sendOk 0 (listUnnotified s.docs 20).reverse.length ∧
    attempted = ((listUnnotified s.docs 20).reverse.take
        (min (leadTrue sendOk 0 (listUnnotified s.docs 20).reverse.length + 1)
          (listUnnotified s.docs 20).reverse.length)).map fun d => d.id := by
  rw [api_notify_run, notifyGo_eq] at h
  simp only [Except.ok.injEq, Prod.mk.injEq] at h
  obtain ⟨h1, h2, h3⟩ := h
  refine ⟨?_, by omega, h3.symm⟩
  rw [← h1]

/-- C1: every notify-now call reads at most 20 posts, all with
`notified = false`, ordered by creation time descending; the sends are then
attempted on the reverse of that batch, which is ascending in creation time
(oldest first): the attempted ids are a prefix of the reversed batch's ids. -/
theorem notify_reads_twenty_desc_attempts_oldest_first
    (s : DBState) (sendOk : Nat → Bool) (now : Nat)
    (s' : DBState) (sent : Nat) (attempted : List Nat)
    (h : api_notify (some s) sendOk now = Except.ok (s', sent, attempted)) :
    (listUnnotified s.docs 20).length ≤ 20 ∧
    (∀ d ∈ listUnnotified s.docs 20, d.notified = false) ∧
    List.Pairwise createdDesc (listUnnotified s.docs 20) ∧
    List.Pairwise (fun a b : Doc => a.created_at ≤ b.created_at)
      (listUnnotified s.docs 20).reverse ∧
    ∃ t, ((listUnnotified s.docs 20).reverse.map fun d => d.id) = attempted ++ t := by
  obtain ⟨h1, h2, h3⟩ := api_notify_ok_elim h
  refine ⟨List.length_take_le _ _, fun d hd => (mem_listUnnotified hd).2,
    listUnnotified_pairwise s.docs 20,
    List.pairwise_reverse.2 (listUnnotified_pairwise s.docs 20), ?_⟩
  refine ⟨((listUnnotified s.docs 20).reverse.drop
    (min (leadTrue sendOk 0 (listUnnotified s.docs 20).reverse.length + 1)
      (listUnnotified s.docs 20).reverse.length)).map fun d => d.id, ?_⟩
  rw [h3, ← List.map_append, List.take_append_drop]

/-- Witness for C1: a concrete notify run over `sampleDB` with every send
succeeding attempts ids 3, 1, 2 — ascending creation times 1, 2, 3. -/
theorem notify_reads_twenty_desc_attempts_oldest_first_witness :
    (listUnnotified sampleDB.docs 20).length ≤ 20 ∧
    (∀ d ∈ listUnnotified sampleDB.docs 20, d.notified = false) ∧
    List.Pairwise createdDesc (listUnnotified sampleDB.docs 20) ∧
    List.Pairwise (fun a b : Doc => a.created_at ≤ b.created_at)
      (listUnnotified sampleDB.docs 20).reverse ∧
    ∃ t, ((listUnnotified sampleDB.docs 20).reverse.map fun d => d.id) = [3, 1, 2] ++ t :=
  notify_reads_twenty_desc_attempts_oldest_first sampleDB (fun _ => true) 7
    ⟨[⟨1, "A", "u1", true, 2, some 7⟩, ⟨2, "B", "u2", true, 3, some 7⟩,
      ⟨3, "C", "u3", true, 1, some 7⟩, ⟨4, "D", "u4", true, 4, none⟩], 5⟩
    3 [3, 1, 2] (by rfl)

/-- C2: if the k-th attempted send of a notify call fails (all earlier ones
succeeding), the loop stops: the sent count is k, exactly the first k+1 posts
of the oldest-first batch were attempted, and every later post of the batch
is still stored with `notified = false`. -/
theorem notify_short_circuits_on_first_failure
    (s : DBState) (sendOk : Nat → Bool) (now k : Nat)
    (s' : DBState) (sent : Nat) (attempted : List Nat)
    (hnodup : (s.docs.map fun d => d.id).Nodup)
    (h : api_notify (some s) sendOk now = Except.ok (s', sent, attempted))
    (hk : k < (listUnnotified s.docs 20).reverse.length)
    (hsucc : ∀ j, j < k → sendOk j = true)
    (hfail : sendOk k = false) :
    sent = k ∧
    attempted = (((listUnnotified s.docs 20).reverse.take (k + 1)).map fun d => d.id) ∧
    ∀ d ∈ (listUnnotified s.docs 20).reverse.drop (k + 1),
      d ∈ s'.docs ∧ d.notified = false := by
  obtain ⟨h1, h2, h3⟩ := api_notify_ok_elim h
  have hlead : leadTrue sendOk 0 (listUnnotified s.docs 20).reverse.length = k :=
    leadTrue_firstFail sendOk k (listUnnotified s.docs 20).reverse.length 0
      (fun j hj => by simpa using hsucc j hj) (by simpa using hfail) (by omega)
  rw [hlead] at h1 h2 h3
  have hmin : min (k + 1) (listUnnotified s.docs 20).reverse.length = k + 1 := by omega
  rw [hmin] at h3
  refine ⟨h2, h3, ?_⟩
  intro d hd
  have hdmem : d ∈ (listUnnotified s.docs 20).reverse := (List.drop_sublist _ _).subset hd
  have hdn := mem_listUnnotified (List.mem_reverse.1 hdmem)
  have hnod : ((listUnnotified s.docs 20).reverse.map fun d => d.id).Nodup := by
    rw [List.map_reverse]
    exact List.nodup_reverse.2 (listUnnotified_ids_nodup hnodup 20)
  have hnodapp : (((listUnnotified s.docs 20).reverse.take (k + 1)).map (fun d => d.id) ++
      ((listUnnotified s.docs 20).reverse.drop (k + 1)).map (fun d => d.id)).Nodup := by
    rw [← List.map_append, List.take_append_drop]
    exact hnod
  have hdisj := (List.nodup_append.1 hnodapp).2.2
  have hidin : d.id ∈ ((listUnnotified s.docs 20).reverse.drop (k + 1)).map fun d => d.id :=
    List.mem_map_of_mem _ hd
  have hnotin1 : d.id ∉ ((listUnnotified s.docs 20).reverse.take (k + 1)).map fun d => d.id :=
    fun hc => hdisj hc hidin
  have htk : List.Sublist ((listUnnotified s.docs 20).reverse.take k)
      ((listUnnotified s.docs 20).reverse.take (k + 1)) := by
    have he : (listUnnotified s.docs 20).reverse.take k =
        ((listUnnotified s.docs 20).reverse.take (k + 1)).take k := by
      rw [List.take_take]
      congr 1
      omega
    rw [he]
    exact List.take_sublist _ _
  have hnotin : d.id ∉ ((listUnnotified s.docs 20).reverse.take k).map fun d => d.id :=
    fun hc => hnotin1 ((List.Sublist.map _ htk).subset hc)
  refine ⟨?_, hdn.2⟩
  rw [h1]
  exact mem_markAll_of_not hdn.1 hnotin

/-- Witness for C2: over `sampleDB`, the second attempted send fails: the call
reports one sent message, attempted exactly ids 3 then 1, and the remaining
post of the batch (id 2) is still stored unnotified. -/
theorem notify_short_circuits_on_first_failure_witness :
    1 = 1 ∧
    [3, 1] = (((listUnnotified sampleDB.docs 20).reverse.take (1 + 1)).map fun d => d.id) ∧
    ∀ d ∈ (listUnnotified sampleDB.docs 20).reverse.drop (1 + 1),
      d ∈ ([⟨1, "A", "u1", false, 2, none⟩, ⟨2, "B", "u2", false, 3, none⟩,
            ⟨3, "C", "u3", true, 1, some 7⟩, ⟨4, "D", "u4", true, 4, none⟩] : List Doc) ∧
      d.notified = false :=
  notify_short_circuits_on_first_failure sampleDB (fun i => i == 0) 7 1
    ⟨[⟨1, "A", "u1", false, 2, none⟩, ⟨2, "B", "u2", false, 3, none⟩,
      ⟨3, "C", "u3", true, 1, some 7⟩, ⟨4, "D", "u4", true, 4, none⟩], 5⟩
    1 [3, 1] (by decide) (by rfl) (by decide) (by decide) (by decide)

/-- C3: after a notify call, every stored doc with `notified = true` either was
already in the store before the call, or carries the fresh update stamp and
its id was the target of the i-th attempted send for some i below the sent
count, with the provider confirming that attempt; unattempted or unconfirmed
posts are never marked. -/
theorem notify_marks_only_on_confirmed_send
    (s : DBState) (sendOk : Nat → Bool) (now : Nat)
    (s' : DBState) (sent : Nat) (attempted : List Nat)
    (h : api_notify (some s) sendOk now = Except.ok (s', sent, attempted)) :
    ∀ d' ∈ s'.docs, d'.notified = true →
      d' ∈ s.docs ∨
      (d'.updated_at = some now ∧
        ∃ i, i < sent ∧ sendOk i = true ∧ attempted[i]? = some d'.id) := by
  obtain ⟨h1, h2, h3⟩ := api_notify_ok_elim h
  intro d' hd' hnotif
  rw [h1] at hd'
  rcases mem_markAll hd' with hmem | ⟨d, hd, hdi, hde⟩
  · exact Or.inl hmem
  · right
    have hdid : d'.id = d.id := by rw [hde]; rfl
    refine ⟨by rw [hde]; rfl, ?_⟩
    obtain ⟨i, hilen, hival⟩ := List.mem_iff_getElem.1 hdi
    have hik : i < leadTrue sendOk 0 (listUnnotified s.docs 20).reverse.length ⊓
        (listUnnotified s.docs 20).reverse.length := by
      simpa [List.length_map, List.length_take] using hilen
    refine ⟨i, by omega, ?_, ?_⟩
    · have hi2 : i < leadTrue sendOk 0 (listUnnotified s.docs 20).reverse.length := by omega
      simpa using leadTrue_true sendOk (listUnnotified s.docs 20).reverse.length 0 i hi2
    · have hival2 : (List.map (fun b => b.id)
          (List.take (leadTrue sendOk 0 (listUnnotified s.docs 20).reverse.length)
            (listUnnotified s.docs 20).reverse))[i]? = some d.id := by
        rw [List.getElem?_eq_getElem hilen, hival]
      rw [List.map_take, List.getElem?_take, if_pos (by omega)] at hival2
      rw [h3, List.map_take, List.getElem?_take, if_pos (by omega), hdid]
      exact hival2

/-- Witness for C3: in the concrete failed-second-send run over `sampleDB`,
the newly `notified` doc id 3 is either an untouched original or (as here)
stamped `updated_at = 7` with its id the confirmed attempt 0 of the call. -/
theorem notify_marks_only_on_confirmed_send_witness :
    (⟨3, "C", "u3", true, 1, some 7⟩ : Doc) ∈ sampleDB.docs ∨
    ((⟨3, "C", "u3", true, 1, some 7⟩ : Doc).updated_at = some 7 ∧
      ∃ i, i < 1 ∧ (fun i => i == 0) i = true ∧
        ([3, 1] : List Nat)[i]? = some (⟨3, "C", "u3", true, 1, some 7⟩ : Doc).id) :=
  notify_marks_only_on_confirmed_send sampleDB (fun i => i == 0) 7
    ⟨[⟨1, "A", "u1", false, 2, none⟩, ⟨2, "B", "u2", false, 3, none⟩,
      ⟨3, "C", "u3", true, 1, some 7⟩, ⟨4, "D", "u4", true, 4, none⟩], 5⟩
    1 [3, 1] (by rfl) ⟨3, "C", "u3", true, 1, some 7⟩ (by decide) (by rfl)

/-! Helper lemmas about the store loop. -/

theorem storeLoop_snd (ex : List String) (posts : List Post) : ∀ s : DBState,
    (storeLoop ex s posts).2 = posts.filter fun p => !(ex.contains p.url) := by
  induction posts with
  | nil => intro s; simp [storeLoop]
  | cons p rest ih =>
    intro s
    by_cases hc : p.url ∈ ex
    · simp [storeLoop, hc, List.filter_cons, ih]
    · simp [storeLoop, hc, List.filter_cons, ih]

theorem storeLoop_docs (ex : List String) (posts : List Post) : ∀ s : DBState,
    (storeLoop ex s posts).1.docs.map (fun d => (d.title, d.url, d.notified)) =
      s.docs.map (fun d => (d.title, d.url, d.notified)) ++
        (posts.filter fun p => !(ex.contains p.url)).map fun p => (p.title, p.url, false) := by
  induction posts with
  | nil => intro s; simp [storeLoop]
  | cons p rest ih =>
    intro s
    by_cases hc : p.url ∈ ex
    · simp [storeLoop, hc, List.filter_cons, ih]
    · simp [storeLoop, hc, List.filter_cons, ih, create_document, List.append_assoc]

theorem storeLoop_urls (ex : List String) (posts : List Post) : ∀ s : DBState,
    (storeLoop ex s posts).1.docs.map (fun d => d.url) =
      s.docs.map (fun d => d.url) ++
        (posts.filter fun p => !(ex.contains p.url)).map fun p => p.url := by
  induction posts with
  | nil => intro s; simp [storeLoop]
  | cons p rest ih =>
    intro s
    by_cases hc : p.url ∈ ex
    · simp [storeLoop, hc, List.filter_cons, ih]
    · simp [storeLoop, hc, List.filter_cons, ih, create_document, List.append_assoc]

/-- C6: `store_new_posts` keeps exactly the candidates whose URL is not among
the URLs present when the call started, in input order; each kept candidate is
appended to the store with `notified = false`, in the same order; and a
missing db handle yields the 500 storage error. -/
theorem store_new_posts_inserts_unseen_in_order
    (s : DBState) (posts : List Post) (s' : DBState) (ins : List Post)
    (h : store_new_posts (some s) posts = Except.ok (s', ins)) :
    ins = posts.filter (fun p => !((s.docs.map fun d => d.url).contains p.url)) ∧
    s'.docs.map (fun d => (d.title, d.url, d.notified)) =
      s.docs.map (fun d => (d.title, d.url, d.notified)) ++
        ins.map (fun p => (p.title, p.url, false)) ∧
    store_new_posts none posts = Except.error 500 := by
  simp only [store_new_posts, get_documents, Except.ok.injEq] at h
  have e2 : ins = posts.filter fun p => !((s.docs.map fun d => d.url).contains p.url) := by
    rw [← storeLoop_snd (s.docs.map fun d => d.url) posts s, h]
  have e1 := storeLoop_docs (s.docs.map fun d => d.url) posts s
  rw [h] at e1
  exact ⟨e2, by rw [e2]; exact e1, rfl⟩

/-- Witness for C6: of a two-candidate batch against a store already holding
`u1`, only the `u2` candidate is inserted (with `notified = false`), and the
unset-handle call fails with 500. -/
theorem store_new_posts_inserts_unseen_in_order_witness :
    ([⟨"Y", "u2"⟩] : List Post) =
      storePosts.filter (fun p => !((storeDB.docs.map fun d => d.url).contains p.url)) ∧
    ([⟨1, "A", "u1", false, 1, none⟩, ⟨2, "Y", "u2", false, 2, none⟩] : List Doc).map
        (fun d => (d.title, d.url, d.notified)) =
      storeDB.docs.map (fun d => (d.title, d.url, d.notified)) ++
        ([⟨"Y", "u2"⟩] : List Post).map (fun p => (p.title, p.url, false)) ∧
    store_new_posts none storePosts = Except.error 500 :=
  store_new_posts_inserts_unseen_in_order storeDB storePosts
    ⟨[⟨1, "A", "u1", false, 1, none⟩, ⟨2, "Y", "u2", false, 2, none⟩], 3⟩
    [⟨"Y", "u2"⟩] (by rfl)

/-- C10: `store_new_posts` does not de-duplicate inside its own batch — the
existing-URL set is computed once and never extended during the loop — so a
batch holding the same unseen URL twice inserts two stored posts with
identical `url` in one sequential call. -/
theorem store_new_posts_no_intra_batch_dedup :
    store_new_posts (some ⟨[], 0⟩) [⟨"dup A", dupUrl⟩, ⟨"dup B", dupUrl⟩] =
      Except.ok
        (⟨[⟨0, "dup A", dupUrl, false, 0, none⟩, ⟨1, "dup B", dupUrl, false, 1, none⟩], 2⟩,
         [⟨"dup A", dupUrl⟩, ⟨"dup B", dupUrl⟩]) ∧
    ¬ (([⟨0, "dup A", dupUrl, false, 0, none⟩,
         ⟨1, "dup B", dupUrl, false, 1, none⟩] : List Doc).map fun d => d.url).Nodup :=
  ⟨by rfl, by decide⟩

theorem api_fetch_run (s : DBState) (status : Nat) (doc : List Anchor) (posts : List Post)
    (hfetch : fetch_gazette_posts status doc = Except.ok posts) :
    api_fetch (some s) status doc =
      Except.ok ((storeLoop (s.docs.map fun d => d.url) s posts).1,
        ⟨posts.length, (storeLoop (s.docs.map fun d => d.url) s posts).2.length,
         (storeLoop (s.docs.map fun d => d.url) s posts).2⟩) := by
  simp [api_fetch, hfetch, store_new_posts, get_documents]

/-- C7: running fetch-and-store twice against the same remote page (same
status and same HTML anchors) inserts nothing on the second call: its
response reports `new = 0`. -/
theorem api_fetch_twice_second_new_zero
    (s : DBState) (status : Nat) (doc : List Anchor)
    (s1 : DBState) (r1 : FetchResponse)
    (h1 : api_fetch (some s) status doc = Except.ok (s1, r1))
    (s2 : DBState) (r2 : FetchResponse)
    (h2 : api_fetch (some s1) status doc = Except.ok (s2, r2)) :
    r2.new = 0 := by
  cases hfetch : fetch_gazette_posts status doc with
  | error e =>
    rw [api_fetch, hfetch] at h1
    exact absurd h1 (by simp)
  | ok posts =>
    rw [api_fetch_run s status doc posts hfetch] at h1
    rw [api_fetch_run s1 status doc posts hfetch] at h2
    simp only [Except.ok.injEq, Prod.mk.injEq] at h1 h2
    obtain ⟨hs1, hr1⟩ := h1
    obtain ⟨hs2, hr2⟩ := h2
    rw [← hr2]
    show (storeLoop (s1.docs.map fun d => d.url) s1 posts).2.length = 0
    rw [storeLoop_snd]
    have hurls : s1.docs.map (fun d => d.url) =
        s.docs.map (fun d => d.url) ++
          (posts.filter fun p => !((s.docs.map fun d => d.url).contains p.url)).map
            fun p => p.url := by
      rw [← hs1]
      exact storeLoop_urls _ posts s
    have hnil : posts.filter (fun p => !((s1.docs.map fun d => d.url).contains p.url)) = [] := by
      rw [List.filter_eq_nil_iff]
      intro p hp
      have hmem : p.url ∈ s1.docs.map fun d => d.url := by
        rw [hurls]
        by_cases hc : p.url ∈ s.docs.map fun d => d.url
        · exact List.mem_append.2 (Or.inl hc)
        · refine List.mem_append.2 (Or.inr ?_)
          have hpf : p ∈ posts.filter fun q => !((s.docs.map fun d => d.url).contains q.url) :=
            List.mem_filter.2 ⟨hp, by simp [hc]⟩
          exact List.mem_map_of_mem _ hpf
      simp [hmem]
    rw [hnil]
    rfl

/-- Witness for C7: fetching the two-anchor page into an empty store and then
fetching it again reports `new = 0` the second time. -/
theorem api_fetch_twice_second_new_zero_witness :
    FetchResponse.new ⟨2, 0, []⟩ = 0 :=
  api_fetch_twice_second_new_zero ⟨[], 0⟩ 200 twoAnchors twoAnchorsDB
    ⟨2, 2, [⟨"Title A", "https://gazette.gov.mv/iulaan/view/1"⟩,
            ⟨"Title B", "https://gazette.gov.mv/iulaan/view/2"⟩]⟩
    (by rfl) twoAnchorsDB ⟨2, 0, []⟩ (by rfl)

/-! Helper lemmas about the parsing folds. -/

theorem mem_addIfNew {acc : List Post} {t u : String} {p : Post}
    (h : p ∈ addIfNew acc t u) : p ∈ acc ∨ p = ⟨t, u⟩ := by
  unfold addIfNew at h
  by_cases hc : hasUrl acc u
  · rw [if_pos hc] at h
    exact Or.inl h
  · rw [if_neg hc] at h
    rcases List.mem_append.1 h with h1 | h1
    · exact Or.inl h1
    · exact Or.inr (by simpa using h1)

theorem mem_fallbackStep {acc : List Post} {a : Anchor} {p : Post}
    (h : p ∈ fallbackStep acc a) :
    p ∈ acc ∨ ∃ hr, a.href = some hr ∧ hr ≠ "" ∧ a.text ≠ "" ∧
      strContains hr detailPath = true ∧ p = ⟨a.text, normalizeUrl hr⟩ := by
  rcases ha : a.href with _ | hr
  · simp only [fallbackStep, ha] at h
    exact Or.inl h
  · simp only [fallbackStep, ha] at h
    by_cases hc : hr ≠ "" ∧ a.text ≠ "" ∧ strContains hr detailPath = true
    · rw [if_pos hc] at h
      rcases mem_addIfNew h with h1 | h1
      · exact Or.inl h1
      · exact Or.inr ⟨hr, rfl, hc.1, hc.2.1, hc.2.2, h1⟩
    · rw [if_neg hc] at h
      exact Or.inl h

theorem mem_foldl_fallbackStep :
    ∀ (l : List Anchor) (acc : List Post) (p : Post),
      p ∈ l.foldl fallbackStep acc →
      p ∈ acc ∨ ∃ a ∈ l, ∃ hr, a.href = some hr ∧ hr ≠ "" ∧ a.text ≠ "" ∧
        strContains hr detailPath = true ∧ p = ⟨a.text, normalizeUrl hr⟩ := by
  intro l
  induction l with
  | nil => intro acc p h; exact Or.inl h
  | cons a l ih =>
    intro acc p h
    rcases ih (fallbackStep acc a) p h with h1 | ⟨b, hb, hr, hhr⟩
    · rcases mem_fallbackStep h1 with h2 | ⟨hr, hhr⟩
      · exact Or.inl h2
      · exact Or.inr ⟨a, List.mem_cons_self a l, hr, hhr⟩
    · exact Or.inr ⟨b, List.mem_cons_of_mem _ hb, hr, hhr⟩

/-- C4: on a 200 response, the fetch uses the fallback strategy exactly when
the primary strategy yields zero posts — the result is the fallback fold when
the primary fold is empty and the primary fold otherwise — and every fallback
post comes from a list-item anchor whose href has the detail path as a
substring. -/
theorem fetch_fallback_iff_primary_empty (doc : List Anchor) :
    (primaryPosts doc = [] → fetch_gazette_posts 200 doc = Except.ok (fallbackPosts doc)) ∧
    (primaryPosts doc ≠ [] → fetch_gazette_posts 200 doc = Except.ok (primaryPosts doc)) ∧
    ∀ p ∈ fallbackPosts doc, ∃ a ∈ doc, a.inListItem = true ∧
      ∃ hr, a.href = some hr ∧ strContains hr detailPath = true ∧
        p.title = a.text ∧ p.url = normalizeUrl hr := by
  refine ⟨?_, ?_, ?_⟩
  · intro h
    simp [fetch_gazette_posts, h]
  · intro h
    simp [fetch_gazette_posts, List.isEmpty_iff, h]
  · intro p hp
    rcases mem_foldl_fallbackStep (fallbackSelect doc) [] p hp with h1 | ⟨a, ha, hr, hhr⟩
    · exact absurd h1 (List.not_mem_nil p)
    · have hmem := List.mem_filter.1 ha
      exact ⟨a, hmem.1, by simpa using hmem.2, hr, hhr.1, hhr.2.2.2.1,
        by rw [hhr.2.2.2.2], by rw [hhr.2.2.2.2]⟩

/-- Witness for C4: on the fixture the primary strategy yields zero posts and
the fetch returns exactly the one post extracted via the fallback path. -/
theorem fetch_fallback_iff_primary_empty_witness :
    primaryPosts fallbackFixture = [] ∧
    fetch_gazette_posts 200 fallbackFixture =
      Except.ok [⟨"X", "https://gazette.gov.mv/iulaan/view/9"⟩] := by
  refine ⟨by rfl, ?_⟩
  have h := (fetch_fallback_iff_primary_empty fallbackFixture).1 (by rfl)
  rw [h]
  rfl

theorem primaryStep_eq (acc : List Post) (a : Anchor) :
    primaryStep acc a =
      match primExtract a with
      | none => acc
      | some p => addPost acc p := by
  rcases ha : a.href with _ | hr
  · simp [primaryStep, primExtract, ha]
  · simp only [primaryStep, primExtract, ha]
    by_cases hc : a.text = "" ∨ hr = ""
    · simp [hc]
    · simp [hc, addPost]

theorem fallbackStep_eq (acc : List Post) (a : Anchor) :
    fallbackStep acc a =
      match fallExtract a with
      | none => acc
      | some p => addPost acc p := by
  rcases ha : a.href with _ | hr
  · simp [fallbackStep, fallExtract, ha]
  · simp only [fallbackStep, fallExtract, ha]
    by_cases hc : hr ≠ "" ∧ a.text ≠ "" ∧ strContains hr detailPath = true
    · simp [hc, addPost]
    · simp [hc]

theorem foldl_extract (st : List Post → Anchor → List Post) (f : Anchor → Option Post)
    (hst : ∀ acc a, st acc a =
      match f a with
      | none => acc
      | some p => addPost acc p) :
    ∀ (l : List Anchor) (acc : List Post),
      l.foldl st acc = (l.filterMap f).foldl addPost acc := by
  intro l
  induction l with
  | nil => intro acc; simp
  | cons a l ih =>
    intro acc
    rw [List.foldl_cons, hst, List.filterMap_cons]
    cases hf : f a with
    | none => simpa [hf] using ih acc
    | some p => simp [hf, ih]

theorem hasUrl_append (acc : List Post) (p : Post) (u : String) :
    hasUrl (acc ++ [p]) u = (hasUrl acc u || p.url == u) := by
  simp [hasUrl, List.any_append]

theorem foldl_addPost : ∀ (l acc : List Post),
    l.foldl addPost acc = acc ++ dedupKeepFirst (l.filter fun q => !(hasUrl acc q.url)) := by
  intro l
  induction l with
  | nil => intro acc; simp [dedupKeepFirst]
  | cons p l ih =>
    intro acc
    rw [List.foldl_cons]
    by_cases hc : hasUrl acc p.url = true
    · have hstep : addPost acc p = acc := by simp [addPost, addIfNew, hc]
      rw [hstep, ih]
      have hfc : (p :: l).filter (fun q => !(hasUrl acc q.url)) =
          l.filter fun q => !(hasUrl acc q.url) := by
        rw [List.filter_cons]
        simp [hc]
      rw [hfc]
    · have hstep : addPost acc p = acc ++ [p] := by simp [addPost, addIfNew, hc]
      rw [hstep, ih]
      have hfc : (p :: l).filter (fun q => !(hasUrl acc q.url)) =
          p :: l.filter fun q => !(hasUrl acc q.url) := by
        rw [List.filter_cons]
        simp [hc]
      rw [hfc, dedupKeepFirst, List.append_assoc, List.singleton_append]
      congr 2
      rw [List.filter_filter]
      refine congrArg dedupKeepFirst (List.filter_congr ?_)
      intro x hx
      rw [hasUrl_append]
      by_cases hxp : x.url = p.url
      · simp [hxp]
      · have e1 : (p.url == x.url) = false := beq_eq_false_iff_ne.2 (Ne.symm hxp)
        have e2 : (x.url == p.url) = false := beq_eq_false_iff_ne.2 hxp
        simp [e1, e2, bne]

theorem dedupKeepFirst_sublist : ∀ l : List Post, List.Sublist (dedupKeepFirst l) l := by
  intro l
  induction l using dedupKeepFirst.induct with
  | case1 => simp [dedupKeepFirst]
  | case2 p rest ih =>
    rw [dedupKeepFirst]
    exact List.Sublist.cons₂ p (ih.trans (List.filter_sublist rest))

theorem dedupKeepFirst_nodup : ∀ l : List Post,
    ((dedupKeepFirst l).map fun p => p.url).Nodup := by
  intro l
  induction l using dedupKeepFirst.induct with
  | case1 => simp [dedupKeepFirst]
  | case2 p rest ih =>
    rw [dedupKeepFirst, List.map_cons, List.nodup_cons]
    refine ⟨?_, ih⟩
    intro hmem
    obtain ⟨q, hq, hqu⟩ := List.mem_map.1 hmem
    have hq2 : q ∈ rest.filter fun q => q.url != p.url :=
      (dedupKeepFirst_sublist _).subset hq
    have hq3 := (List.mem_filter.1 hq2).2
    rw [hqu] at hq3
    simp at hq3

theorem dedupKeepFirst_covers : ∀ l : List Post, ∀ p ∈ l,
    ∃ q ∈ dedupKeepFirst l, q.url = p.url := by
  intro l
  induction l using dedupKeepFirst.induct with
  | case1 => intro p hp; exact absurd hp (List.not_mem_nil p)
  | case2 p rest ih =>
    intro x hx
    rcases List.mem_cons.1 hx with h1 | h1
    · exact ⟨p, by rw [dedupKeepFirst]; exact List.mem_cons_self p _, by rw [h1]⟩
    · by_cases hxp : x.url = p.url
      · exact ⟨p, by rw [dedupKeepFirst]; exact List.mem_cons_self p _, hxp.symm⟩
      · have hxf : x ∈ rest.filter fun q => q.url != p.url :=
          List.mem_filter.2 ⟨h1, by simp [bne, hxp]⟩
        obtain ⟨q, hq, hqu⟩ := ih x hxf
        exact ⟨q, by rw [dedupKeepFirst]; exact List.mem_cons_of_mem _ hq, hqu⟩

theorem dedupKeepFirst_eq_nil {l : List Post} : dedupKeepFirst l = [] ↔ l = [] := by
  cases l with
  | nil => simp [dedupKeepFirst]
  | cons p rest => rw [dedupKeepFirst]; simp

theorem primaryPosts_eq (doc : List Anchor) :
    primaryPosts doc = dedupKeepFirst (primaryCandidates doc) := by
  rw [primaryPosts, foldl_extract primaryStep primExtract primaryStep_eq, foldl_addPost]
  simp [hasUrl, primaryCandidates]

theorem fallbackPosts_eq (doc : List Anchor) :
    fallbackPosts doc = dedupKeepFirst (fallbackCandidates doc) := by
  rw [fallbackPosts, foldl_extract fallbackStep fallExtract fallbackStep_eq, foldl_addPost]
  simp [hasUrl, fallbackCandidates]

theorem fetch_ok_eq (doc : List Anchor) :
    fetch_gazette_posts 200 doc = Except.ok (dedupKeepFirst (fetchCandidates doc)) := by
  have h200 : ¬(200 ≠ 200) := fun h => h rfl
  rw [fetch_gazette_posts, if_neg h200, primaryPosts_eq, fallbackPosts_eq, fetchCandidates]
  by_cases hpc : primaryCandidates doc = []
  · simp [hpc, dedupKeepFirst]
  · have h1 : dedupKeepFirst (primaryCandidates doc) ≠ [] :=
      fun hc => hpc (dedupKeepFirst_eq_nil.1 hc)
    simp [List.isEmpty_iff, hpc, h1]

/-- C5: the posts a successful fetch returns are the first-occurrence
URL-de-duplication of the candidate stream in page order: their URLs are
pairwise distinct, they form a subsequence of the candidates (preserving the
order URLs first appeared), every candidate URL is represented, and the
`new_posts` list of any fetch-now call over the same page is in turn a
subsequence of them. -/
theorem fetch_dedups_first_occurrence_in_order
    (status : Nat) (doc : List Anchor) (posts : List Post)
    (h : fetch_gazette_posts status doc = Except.ok posts) :
    posts = dedupKeepFirst (fetchCandidates doc) ∧
    (posts.map fun p => p.url).Nodup ∧
    List.Sublist posts (fetchCandidates doc) ∧
    (∀ c ∈ fetchCandidates doc, ∃ q ∈ posts, q.url = c.url) ∧
    ∀ db s' resp, api_fetch db status doc = Except.ok (s', resp) →
      List.Sublist resp.new_posts posts := by
  have hstat : status = 200 := by
    by_cases hs : status ≠ 200
    · rw [fetch_gazette_posts, if_pos hs] at h
      exact absurd h (by simp)
    · omega
  subst hstat
  rw [fetch_ok_eq] at h
  have hp : dedupKeepFirst (fetchCandidates doc) = posts := by
    simpa using h
  refine ⟨hp.symm, ?_, ?_, ?_, ?_⟩
  · rw [← hp]
    exact dedupKeepFirst_nodup _
  · rw [← hp]
    exact dedupKeepFirst_sublist _
  · rw [← hp]
    exact dedupKeepFirst_covers _
  · intro db s' resp hapi
    cases db with
    | none =>
      rw [api_fetch, fetch_ok_eq] at hapi
      exact absurd hapi (by simp [store_new_posts])
    | some s =>
      rw [api_fetch_run s 200 doc (dedupKeepFirst (fetchCandidates doc)) (fetch_ok_eq doc)]
        at hapi
      simp only [Except.ok.injEq, Prod.mk.injEq] at hapi
      obtain ⟨hs', hresp⟩ := hapi
      rw [← hresp]
      show List.Sublist
        (storeLoop (s.docs.map fun d => d.url) s (dedupKeepFirst (fetchCandidates doc))).2 posts
      rw [storeLoop_snd, ← hp]
      exact List.filter_sublist _

/-- Witness for C5: fetching the duplicate-URL fixture keeps the first
occurrence of each URL, in page order. -/
theorem fetch_dedups_first_occurrence_in_order_witness :
    ([⟨"A", "https://gazette.gov.mv/iulaan/view/1"⟩,
      ⟨"B", "https://gazette.gov.mv/iulaan/view/2"⟩] : List Post) =
      dedupKeepFirst (fetchCandidates dupAnchors) ∧
    (([⟨"A", "https://gazette.gov.mv/iulaan/view/1"⟩,
       ⟨"B", "https://gazette.gov.mv/iulaan/view/2"⟩] : List Post).map fun p => p.url).Nodup ∧
    List.Sublist ([⟨"A", "https://gazette.gov.mv/iulaan/view/1"⟩,
       ⟨"B", "https://gazette.gov.mv/iulaan/view/2"⟩] : List Post) (fetchCandidates dupAnchors) ∧
    (∀ c ∈ fetchCandidates dupAnchors,
      ∃ q ∈ ([⟨"A", "https://gazette.gov.mv/iulaan/view/1"⟩,
        ⟨"B", "https://gazette.gov.mv/iulaan/view/2"⟩] : List Post), q.url = c.url) ∧
    ∀ db s' resp, api_fetch db 200 dupAnchors = Except.ok (s', resp) →
      List.Sublist resp.new_posts ([⟨"A", "https://gazette.gov.mv/iulaan/view/1"⟩,
        ⟨"B", "https://gazette.gov.mv/iulaan/view/2"⟩] : List Post) :=
  fetch_dedups_first_occurrence_in_order 200 dupAnchors
    [⟨"A", "https://gazette.gov.mv/iulaan/view/1"⟩,
     ⟨"B", "https://gazette.gov.mv/iulaan/view/2"⟩] (by rfl)

/-- C8 counterexample: 201 Created lies in the HTTP success-status class, yet
`fetch_gazette_posts` raises the 502-equivalent on it instead of proceeding to
parse the body — the code accepts exactly status 200, not every success
status. -/
theorem fetch_success_class_counterexample :
    isSuccessStatus 201 = true ∧ fetch_gazette_posts 201 [] = Except.error 502 :=
  ⟨by decide, by rfl⟩

/-- C8 (amended): `fetch_gazette_posts` fails with the 502-equivalent exactly
when the response status differs from 200, and on a 200 response it proceeds
to parse the body instead of raising. -/
theorem fetch_raises_iff_status_not_200 (status : Nat) (doc : List Anchor) :
    (fetch_gazette_posts status doc = Except.error 502 ↔ status ≠ 200) ∧
    (status = 200 → fetch_gazette_posts status doc =
      Except.ok (if (primaryPosts doc).isEmpty then fallbackPosts doc else primaryPosts doc)) := by
  refine ⟨⟨?_, ?_⟩, ?_⟩
  · intro h hs
    subst hs
    rw [fetch_gazette_posts, if_neg (fun hc => hc rfl)] at h
    exact absurd h (by simp)
  · intro h
    rw [fetch_gazette_posts, if_pos h]
  · intro h
    subst h
    rw [fetch_gazette_posts, if_neg (fun hc => hc rfl)]

/-- Witness for C8 (amended): a 502 response raises and a 200 response parses
(an empty page parses to zero posts). -/
theorem fetch_raises_iff_status_not_200_witness :
    fetch_gazette_posts 502 [] = Except.error 502 ∧
    fetch_gazette_posts 200 [] = Except.ok [] := by
  constructor
  · exact (fetch_raises_iff_status_not_200 502 []).1.2 (by decide)
  · have h := (fetch_raises_iff_status_not_200 200 []).2 rfl
    rw [h]
    rfl

/-- C9: the notifier returns a plain boolean — true only when the provider
answered with a success status (in fact exactly 200), false on every
non-success status and on any transport-level failure; no exception escapes,
every outcome maps to a boolean. -/
theorem send_telegram_message_boolean_contract (o : HttpOutcome) :
    (send_telegram_message o = true →
      ∃ s, o = HttpOutcome.response s ∧ isSuccessStatus s = true) ∧
    (∀ s, isSuccessStatus s = false →
      send_telegram_message (HttpOutcome.response s) = false) ∧
    send_telegram_message HttpOutcome.transportFailure = false := by
  refine ⟨?_, ?_, rfl⟩
  · intro h
    cases o with
    | response s =>
      refine ⟨s, rfl, ?_⟩
      have hs : s = 200 := by simpa [send_telegram_message] using h
      subst hs
      decide
    | transportFailure => simp [send_telegram_message] at h
  · intro s hs
    have hne : s ≠ 200 := by
      intro he
      subst he
      exact absurd hs (by decide)
    simp [send_telegram_message, hne]

/-- Witness for C9: a 200 response is reported as success and lies in the
success class; a 404 response is reported as failure. -/
theorem send_telegram_message_boolean_contract_witness :
    (∃ s, HttpOutcome.response 200 = HttpOutcome.response s ∧ isSuccessStatus s = true) ∧
    send_telegram_message (HttpOutcome.response 404) = false :=
  ⟨(send_telegram_message_boolean_contract (HttpOutcome.response 200)).1 rfl,
   (send_telegram_message_boolean_contract (HttpOutcome.response 404)).2.1 404 (by decide)⟩
